import Mathlib

/-!
Verification of the dirty-card-queue subsystem specification and of the
`CSpaceCounters` performance-counter wrapper against the repository's code.

The `CSpace` namespace embeds `cSpaceCounters.cpp` directly.  The `G1`
namespace embeds the dirty card queue set; only the header
`g1DirtyCardQueue.hpp` (declarations and documentation comments) is part of
the repository snapshot, so the operation bodies are modelled from the
specification and the header comments.
-/

namespace CSpace

/-- A contiguous space, observed through its `capacity()` and `used()`
accessors (both in bytes).  The counters read these at each update. -/
structure ContiguousSpace where
  capacity : Nat
  used : Nat
deriving DecidableEq

/-- The values held by the three perf variables a `CSpaceCounters` instance
creates in its constructor when `UsePerfData` is set: `maxCapacity`,
`capacity` and `used`. -/
structure PerfVars where
  maxCapacity : Nat
  capacity : Nat
  used : Nat
deriving DecidableEq

/-- The perf-variable initialisation performed inside the
`if (UsePerfData)` branch of the `CSpaceCounters` constructor:
`maxCapacity` starts at `max_size`, `capacity` at `_space->capacity()`,
`used` at `_space->used()`. -/
def initPerfVars (max_size : Nat) (s : ContiguousSpace) : PerfVars :=
  { maxCapacity := max_size, capacity := s.capacity, used := s.used }

/-- `CSpaceCounters::update_capacity`: `_capacity->set_value(_space->capacity())`. -/
def update_capacity (s : ContiguousSpace) (p : PerfVars) : PerfVars :=
  { p with capacity := s.capacity }

/-- `CSpaceCounters::update_used`: `_used->set_value(_space->used())`. -/
def update_used (s : ContiguousSpace) (p : PerfVars) : PerfVars :=
  { p with used := s.used }

/-- `CSpaceCounters::update_all`: calls `update_used()` then `update_capacity()`. -/
def update_all (s : ContiguousSpace) (p : PerfVars) : PerfVars :=
  update_capacity s (update_used s p)

/-- A `CSpaceCounters` instance.  The perf variables exist only when
`UsePerfData` was true at construction; otherwise the member pointers were
never initialised, which we model as `none`. -/
structure CSpaceCounters where
  space : ContiguousSpace
  perf : Option PerfVars
deriving DecidableEq

/-- The `CSpaceCounters` constructor: stores the space, and creates the
perf variables only inside the `if (UsePerfData)` branch. -/
def mkCounters (usePerfData : Bool) (max_size : Nat) (s : ContiguousSpace) :
    CSpaceCounters :=
  { space := s
    perf := if usePerfData then some (initPerfVars max_size s) else none }

/-- `update_capacity` on a full instance: dereferences the `_capacity`
member, which was initialised only when `UsePerfData` was set; the
dereference of the uninitialised pointer is modelled as failure (`none`).
The space argument is the current state of `*_space`. -/
def updateCapacityChecked (c : CSpaceCounters) (s : ContiguousSpace) :
    Option CSpaceCounters :=
  match c.perf with
  | none => none
  | some p => some { c with space := s, perf := some (update_capacity s p) }

/-- `update_used` on a full instance; fails when the `_used` member was
never initialised. -/
def updateUsedChecked (c : CSpaceCounters) (s : ContiguousSpace) :
    Option CSpaceCounters :=
  match c.perf with
  | none => none
  | some p => some { c with space := s, perf := some (update_used s p) }

/-- `update_all` on a full instance: `update_used()` then `update_capacity()`,
failing as soon as a perf variable is missing. -/
def updateAllChecked (c : CSpaceCounters) (s : ContiguousSpace) :
    Option CSpaceCounters :=
  match updateUsedChecked c s with
  | none => none
  | some c1 => updateCapacityChecked c1 s

/-- Claim C8: `update_used` sets only the `used` perf variable to
`_space->used()` and leaves `capacity` and `maxCapacity` unchanged;
symmetrically `update_capacity` sets only the `capacity` variable to
`_space->capacity()` and leaves `used` and `maxCapacity` unchanged. -/
theorem update_used_update_capacity_frame (s : ContiguousSpace) (p : PerfVars) :
    (update_used s p).used = s.used ∧
    (update_used s p).capacity = p.capacity ∧
    (update_used s p).maxCapacity = p.maxCapacity ∧
    (update_capacity s p).capacity = s.capacity ∧
    (update_capacity s p).used = p.used ∧
    (update_capacity s p).maxCapacity = p.maxCapacity :=
  ⟨rfl, rfl, rfl, rfl, rfl, rfl⟩

/-- Claim C9: `update_all` has exactly the combined effect of `update_used`
followed by `update_capacity`, and for a fixed state of the underlying
space it is idempotent. -/
theorem update_all_combined_and_idempotent (s : ContiguousSpace) (p : PerfVars) :
    update_all s p = update_capacity s (update_used s p) ∧
    update_all s (update_all s p) = update_all s p :=
  ⟨rfl, rfl⟩

/-- Claim C10: the constructor creates the perf variables only inside the
`if (UsePerfData)` branch, so each public update operation succeeds exactly
when `UsePerfData` was true at construction; with `UsePerfData` false the
operations dereference uninitialised pointers (their failure branch is
taken). -/
theorem update_requires_use_perf_data (u : Bool) (m : Nat)
    (s t : ContiguousSpace) :
    (updateCapacityChecked (mkCounters u m s) t).isSome = u ∧
    (updateUsedChecked (mkCounters u m s) t).isSome = u ∧
    (updateAllChecked (mkCounters u m s) t).isSome = u := by
  cases u <;>
    simp [mkCounters, updateCapacityChecked, updateUsedChecked, updateAllChecked]

end CSpace

namespace G1

/-- Modelled from the spec: the body of the refinement loop of
`G1DirtyCardQueueSet::refine_buffer` is not part of the snapshot (only its
declaration and comment, `g1DirtyCardQueue.hpp` lines 198-207).  The loop
walks positions `i, i+1, ...` of the buffer up to the capacity `cap`,
polling the suspendible-thread-set yield signal before refining each entry;
the signal is abstracted as an oracle `sY` on positions.  The first
argument of the recursion is the remaining fuel `cap - i`.  The result is
the new node index, whether the whole buffer was processed, and the list of
positions refined: on a yield the index becomes the first unprocessed
position (the index excludes exactly the processed elements), on completion
the index becomes `cap` (one past the last element). -/
def refineSteps (sY : Nat → Bool) (cap : Nat) : Nat → Nat → Nat × Bool × List Nat
  | 0, _ => (cap, true, [])
  | k + 1, i =>
    if sY i then (i, false, [])
    else
      let r := refineSteps sY cap k (i + 1)
      (r.1, r.2.1, i :: r.2.2)

/-- Modelled from the spec: `refine_buffer` processes the entries of a node
from its current index to `cap - 1`; see `refineSteps`. -/
def refineFrom (sY : Nat → Bool) (cap i : Nat) : Nat × Bool × List Nat :=
  refineSteps sY cap (cap - i) i

/-- Case analysis of the refinement loop, by induction on the fuel. -/
theorem refineSteps_spec (sY : Nat → Bool) (cap : Nat) :
    ∀ (k i : Nat), i + k = cap →
      ((refineSteps sY cap k i).2.1 = true →
        (refineSteps sY cap k i).1 = cap ∧
        (refineSteps sY cap k i).2.2 = List.range' i k) ∧
      ((refineSteps sY cap k i).2.1 = false →
        i ≤ (refineSteps sY cap k i).1 ∧
        (refineSteps sY cap k i).1 < cap ∧
        sY (refineSteps sY cap k i).1 = true ∧
        (refineSteps sY cap k i).2.2 =
          List.range' i ((refineSteps sY cap k i).1 - i)) := by
  intro k
  induction k with
  | zero =>
    intro i hik
    simp [refineSteps]
  | succ k ih =>
    intro i hik
    by_cases hy : sY i
    · constructor
      · intro hdone
        simp [refineSteps, hy] at hdone
      · intro _
        simp [refineSteps, hy]
        omega
    · have hrec := ih (i + 1) (by omega)
      constructor
      · intro hdone
        simp only [refineSteps, if_neg hy] at hdone ⊢
        obtain ⟨h1, h2⟩ := hrec.1 hdone
        refine ⟨h1, ?_⟩
        rw [h2, List.range'_succ]
      · intro hdone
        simp only [refineSteps, if_neg hy] at hdone ⊢
        obtain ⟨h1, h2, h3, h4⟩ := hrec.2 hdone
        refine ⟨by omega, h2, h3, ?_⟩
        rw [h4]
        have hd : (refineSteps sY cap k (i + 1)).1 - i =
            ((refineSteps sY cap k (i + 1)).1 - (i + 1)) + 1 := by omega
        rw [hd, List.range'_succ]

/-- A run of the refinement loop with no pending yield request processes
every remaining entry. -/
theorem refineSteps_noYield (cap : Nat) :
    ∀ (k i : Nat), i + k = cap →
      refineSteps (fun _ => false) cap k i = (cap, true, List.range' i k) := by
  intro k
  induction k with
  | zero => intro i hik; simp [refineSteps]
  | succ k ih =>
    intro i hik
    simp only [refineSteps, if_neg (Bool.false_ne_true)]
    rw [ih (i + 1) (by omega), List.range'_succ]

/-- Claim C2: starting from the node's current index `i` (with `i ≤ cap`):
on full completion the index is set to the capacity `cap` and the loop
reports true, having refined exactly the positions `[i, cap)`; on a yield
request the index is updated to the first unprocessed position `i2` with
`i ≤ i2 < cap`, the loop reports false having refined exactly `[i, i2)`,
and a subsequent resumption refines exactly the remaining positions
`[i2, cap)` and no others, so that yield and resumption together refine
exactly `[i, cap)`. -/
theorem refine_buffer_index_spec (sY : Nat → Bool) (cap i : Nat) (h : i ≤ cap) :
    ((refineFrom sY cap i).2.1 = true →
      (refineFrom sY cap i).1 = cap ∧
      (refineFrom sY cap i).2.2 = List.range' i (cap - i)) ∧
    ((refineFrom sY cap i).2.1 = false →
      i ≤ (refineFrom sY cap i).1 ∧
      (refineFrom sY cap i).1 < cap ∧
      (refineFrom sY cap i).2.2 =
        List.range' i ((refineFrom sY cap i).1 - i) ∧
      (refineFrom (fun _ => false) cap ((refineFrom sY cap i).1)).2.2 =
        List.range' ((refineFrom sY cap i).1) (cap - (refineFrom sY cap i).1) ∧
      (refineFrom sY cap i).2.2 ++
          (refineFrom (fun _ => false) cap ((refineFrom sY cap i).1)).2.2 =
        List.range' i (cap - i)) := by
  have hmain := refineSteps_spec sY cap (cap - i) i (by omega)
  unfold refineFrom
  refine ⟨hmain.1, ?_⟩
  intro hdone
  obtain ⟨h1, h2, _, h4⟩ := hmain.2 hdone
  have hres := refineSteps_noYield cap
      (cap - (refineSteps sY cap (cap - i) i).1)
      ((refineSteps sY cap (cap - i) i).1) (by omega)
  rw [hres]
  refine ⟨h1, h2, h4, rfl, ?_⟩
  rw [h4]
  have := List.range'_append i ((refineSteps sY cap (cap - i) i).1 - i)
      (cap - (refineSteps sY cap (cap - i) i).1) 1
  simp only [one_mul, Nat.mul_one] at this
  rw [show i + ((refineSteps sY cap (cap - i) i).1 - i) =
      (refineSteps sY cap (cap - i) i).1 by omega] at this
  rw [this]
  congr 1
  omega

/-- Concrete run of `refine_buffer_index_spec`: capacity 6, starting index
1, yield signalled at position 3; the yielded call refines exactly
positions 1 and 2 and the resumption refines exactly 3, 4, 5. -/
theorem refine_buffer_index_spec_witness :
    (1 ≤ 6 ∧ (refineFrom (fun j => decide (j = 3)) 6 1).1 = 3) ∧
    (refineFrom (fun j => decide (j = 3)) 6 1).2.2 ++
        (refineFrom (fun _ => false) 6 ((refineFrom (fun j => decide (j = 3)) 6 1).1)).2.2 =
      List.range' 1 (6 - 1) :=
  ⟨⟨by decide, by decide⟩,
    ((refine_buffer_index_spec (fun j => decide (j = 3)) 6 1 (by decide)).2
      (by decide)).2.2.2.2⟩

/-- Modelled from the spec: a `BufferNode` carries a fixed-capacity entry
array and a monotonically decreasing index; entries at positions
`[index, capacity)` are live card pointers and positions `[0, index)` are
undefined.  We represent a node by its live segment `live` (the card
pointers at `[index, capacity)`, lowest position first); the index is
`capacity - live.length`.  A card pointer is an opaque machine word,
represented as a `Nat`. -/
structure BufferNode where
  live : List Nat
deriving DecidableEq

/-- The node's card count: the number of live entries,
`buffer_capacity() - index()` in the source's terms. -/
def BufferNode.cards (n : BufferNode) : Nat := n.live.length

/-- Per-thread refinement statistics (`G1ConcurrentRefineStats`): counts of
cards and buffers refined and of yields observed. -/
structure RefineStats where
  refinedCards : Nat
  refinedBuffers : Nat
  yields : Nat
deriving DecidableEq

/-- `G1ConcurrentRefineStats::reset()`: all accumulators return to zero. -/
def RefineStats.reset : RefineStats :=
  { refinedCards := 0, refinedBuffers := 0, yields := 0 }

/-- Modelled from the spec: the state of a `G1DirtyCardQueueSet`.  The
implementation file is not part of the snapshot; the fields follow
`g1DirtyCardQueue.hpp` lines 160-180.  `completed` is the non-blocking
queue of buffers ready for refinement (head first); `pausedPrev` holds the
paused buffers recorded for already-passed safepoints (state (3) of
`_plist`), `pausedNext` those recorded for the next safepoint (state (2));
`freelist` is the `BufferNode::Allocator` free list; `numCards` is the
upper bound on the cards in the completed and paused buffers. -/
structure QueueSet where
  numCards : Nat
  mutatorThreshold : Nat
  completed : List BufferNode
  pausedPrev : List BufferNode
  pausedNext : List BufferNode
  freelist : List BufferNode
  concatenatedStats : RefineStats
  detachedStats : RefineStats
deriving DecidableEq

/-- Sum of the card counts of a list of nodes. -/
def listCards (l : List BufferNode) : Nat := (l.map BufferNode.cards).sum

/-- Modelled from the spec: `enqueue_completed_buffer` adds the node's card
count to `num_cards` and pushes the node onto the tail of the completed
queue. -/
def enqueue_completed_buffer (n : BufferNode) (qs : QueueSet) : QueueSet :=
  { qs with numCards := qs.numCards + n.cards
            completed := qs.completed ++ [n] }

/-- Modelled from the spec: `NonblockingQueue::try_pop` as used by
`dequeue_completed_buffer` (header lines 213-217): returns the head node,
or nothing if the queue is empty or if a concurrent push or append
interferes ("spurious empty").  Interference by a concurrent modification
is abstracted as the oracle `interfere`. -/
def try_pop (interfere : Bool) (q : List BufferNode) :
    Option (BufferNode × List BufferNode) :=
  if interfere then none
  else
    match q with
    | [] => none
    | n :: rest => some (n, rest)

/-- Modelled from the spec: `dequeue_completed_buffer` attempts, inside a
global-counter critical section, to remove and return the first buffer of
the completed queue; null on empty queue or concurrent interference. -/
def dequeue_completed_buffer (interfere : Bool) (qs : QueueSet) :
    Option BufferNode × QueueSet :=
  match try_pop interfere qs.completed with
  | none => (none, qs)
  | some (n, rest) => (some n, { qs with completed := rest })

/-- Modelled from the spec: `enqueue_previous_paused_buffers` transfers the
paused buffers recorded for previous safepoints back onto the completed
queue (an append; their cards are already included in `num_cards`). -/
def enqueue_previous_paused_buffers (qs : QueueSet) : QueueSet :=
  { qs with completed := qs.completed ++ qs.pausedPrev
            pausedPrev := [] }

/-- Modelled from the spec: `record_paused_buffer` first ensures there are
no paused buffers from a previous safepoint, then adds the node's remaining
cards back to `num_cards` (they were subtracted when the buffer was popped)
and prepends the node to the paused list for the next safepoint. -/
def record_paused_buffer (n : BufferNode) (qs : QueueSet) : QueueSet :=
  let q1 := enqueue_previous_paused_buffers qs
  { q1 with numCards := q1.numCards + n.cards
            pausedNext := n :: q1.pausedNext }

/-- Modelled from the spec: `handle_refined_buffer` deallocates a fully
processed buffer to the allocator, and records a partially processed one as
paused. -/
def handle_refined_buffer (n : BufferNode) (fully : Bool) (qs : QueueSet) :
    QueueSet :=
  if fully then { qs with freelist := n :: qs.freelist }
  else record_paused_buffer n qs

/-- Modelled from the spec: one pass of the refinement loop over a node's
live entries.  The entries are processed front first (lowest position
first); before each entry the yield signal is polled, abstracted as the
oracle `sY` applied to the number of entries already processed in this
pass.  Returns the cards delivered to the refinement hook, the remaining
unprocessed cards, and whether the whole buffer was processed. -/
def refineLive (sY : Nat → Bool) : Nat → List Nat → List Nat × List Nat × Bool
  | _, [] => ([], [], true)
  | k, c :: rest =>
    if sY k then ([], c :: rest, false)
    else
      let r := refineLive sY (k + 1) rest
      (c :: r.1, r.2.1, r.2.2)

/-- Modelled from the spec: `refine_buffer` on a node: run the refinement
loop from the node's index; the result is the delivered cards, the updated
node (its index now excludes the processed entries), and whether processing
completed. -/
def refineNode (sY : Nat → Bool) (n : BufferNode) :
    List Nat × BufferNode × Bool :=
  let r := refineLive sY 0 n.live
  (r.1, ⟨r.2.1⟩, r.2.2)

/-- Modelled from the spec: `get_completed_buffer` transfers previously
paused buffers to the queue, attempts to dequeue a buffer, and on success
subtracts the buffer's cards from `num_cards`. -/
def get_completed_buffer (interfere : Bool) (qs : QueueSet) :
    Option BufferNode × QueueSet :=
  let q1 := enqueue_previous_paused_buffers qs
  match try_pop interfere q1.completed with
  | none => (none, q1)
  | some (n, rest) =>
    (some n, { q1 with completed := rest, numCards := q1.numCards - n.cards })

/-- Modelled from the spec: the shared pop-one-buffer-and-refine-it step:
obtain a buffer via `get_completed_buffer`; if none is available report
false; otherwise refine it, deal with the result via
`handle_refined_buffer`, and report true together with the cards delivered
to the refinement hook. -/
def pop_and_refine (sY : Nat → Bool) (interfere : Bool) (qs : QueueSet) :
    Bool × QueueSet × List Nat :=
  match get_completed_buffer interfere qs with
  | (none, q1) => (false, q1, [])
  | (some n, q2) =>
    let r := refineNode sY n
    (true, handle_refined_buffer r.2.1 r.2.2 q2, r.1)

/-- Modelled from the spec: `refine_completed_buffer_concurrently`
(header lines 261-270): if `num_cards <= stop_at` return false, otherwise
transfer previously paused buffers, pop one buffer, refine it; false if no
buffer was available. -/
def refine_completed_buffer_concurrently (sY : Nat → Bool) (stop_at : Nat)
    (interfere : Bool) (qs : QueueSet) : Bool × QueueSet × List Nat :=
  if qs.numCards ≤ stop_at then (false, qs, [])
  else pop_and_refine sY interfere qs

/-- Modelled from the spec: `handle_completed_buffer` (header lines
225-233), the mutator path when a per-thread buffer fills: enqueue the
node; then, only if the completed buffers hold more than
`mutator_refinement_threshold` cards, perform exactly one refinement step
inline (pop one buffer and refine it).  Returns the new state and the
cards delivered by the inline refinement. -/
def handle_completed_buffer (sY : Nat → Bool) (interfere : Bool)
    (n : BufferNode) (qs : QueueSet) : QueueSet × List Nat :=
  let q1 := enqueue_completed_buffer n qs
  if q1.numCards ≤ q1.mutatorThreshold then (q1, [])
  else
    let r := pop_and_refine sY interfere q1
    (r.2.1, r.2.2)

/-- Modelled from the spec: `enqueue_all_paused_buffers` (used at a
safepoint) transfers every paused buffer, of either generation, onto the
completed queue. -/
def enqueue_all_paused_buffers (qs : QueueSet) : QueueSet :=
  { qs with completed := qs.completed ++ qs.pausedPrev ++ qs.pausedNext
            pausedPrev := []
            pausedNext := [] }

/-- Modelled from the spec: `take_all_completed_buffers` (safepoint) drains
the completed queue and the paused buffers into one list, returned with the
current exact card count; the queue set is left empty. -/
def take_all_completed_buffers (qs : QueueSet) :
    (List BufferNode × Nat) × QueueSet :=
  let q1 := enqueue_all_paused_buffers qs
  ((q1.completed, q1.numCards), { q1 with completed := [], numCards := 0 })

/-- Modelled from the spec: `abandon_completed_buffers` takes all completed
and paused buffers and returns them to the allocator; `num_cards` becomes
zero. -/
def abandon_completed_buffers (qs : QueueSet) : QueueSet :=
  let q1 := enqueue_all_paused_buffers qs
  { q1 with completed := []
            numCards := 0
            freelist := q1.completed ++ q1.freelist }

/-- A thread attached to the queue set: its dirty card queue holds at most
one buffer being filled by the write barrier, and its thread-local
refinement stats. -/
structure GCThread where
  buffer : Option BufferNode
  stats : RefineStats
deriving DecidableEq

/-- Modelled from the spec: `abandon_logs_and_stats` (safepoint, full GC):
reset every attached thread's queue and stats, returning each thread's
buffer to the allocator; abandon all completed and paused buffers; reset
the concatenated and detached global stats. -/
def abandon_logs_and_stats (threads : List GCThread) (qs : QueueSet) :
    List GCThread × QueueSet :=
  let ts := threads.map (fun _ => ({ buffer := none, stats := RefineStats.reset } : GCThread))
  let q1 := { qs with freelist := threads.filterMap GCThread.buffer ++ qs.freelist }
  let q2 := abandon_completed_buffers q1
  (ts, { q2 with concatenatedStats := RefineStats.reset
                 detachedStats := RefineStats.reset })

/-- A sample buffer node used to exercise the queue-set operations. -/
def sampleNode : BufferNode := ⟨[7, 8]⟩

/-- A sample queue-set state: one completed buffer holding two cards. -/
def sampleQS : QueueSet :=
  { numCards := 2
    mutatorThreshold := 0
    completed := [sampleNode]
    pausedPrev := []
    pausedNext := []
    freelist := []
    concatenatedStats := RefineStats.reset
    detachedStats := RefineStats.reset }

/-- Claim C1: `refine_completed_buffer_concurrently` returns false without
any effect when `num_cards <= stop_at`; otherwise it first transfers the
previously paused buffers back to the completed queue, then pops one buffer
from it, returning false if none is available; if a buffer is popped the
call refines it and returns true, handing the node to the allocator's free
list on full completion and recording it in the paused buffers for the next
safepoint on yield. -/
theorem refine_concurrently_spec (sY : Nat → Bool) (stop_at : Nat)
    (interfere : Bool) (qs : QueueSet) :
    (qs.numCards ≤ stop_at →
      refine_completed_buffer_concurrently sY stop_at interfere qs =
        (false, qs, [])) ∧
    (stop_at < qs.numCards →
      (enqueue_previous_paused_buffers qs).pausedPrev = [] ∧
      (enqueue_previous_paused_buffers qs).completed =
        qs.completed ++ qs.pausedPrev ∧
      (try_pop interfere (enqueue_previous_paused_buffers qs).completed = none →
        refine_completed_buffer_concurrently sY stop_at interfere qs =
          (false, enqueue_previous_paused_buffers qs, [])) ∧
      (∀ n rest,
        try_pop interfere (enqueue_previous_paused_buffers qs).completed =
          some (n, rest) →
        (refine_completed_buffer_concurrently sY stop_at interfere qs).1 =
          true ∧
        ((refineNode sY n).2.2 = true →
          (refine_completed_buffer_concurrently sY stop_at interfere qs).2.1.freelist =
            (refineNode sY n).2.1 :: qs.freelist) ∧
        ((refineNode sY n).2.2 = false →
          (refine_completed_buffer_concurrently sY stop_at interfere qs).2.1.pausedNext =
            (refineNode sY n).2.1 :: qs.pausedNext))) := by
  constructor
  · intro h
    simp [refine_completed_buffer_concurrently, h]
  · intro h
    have hn : ¬ qs.numCards ≤ stop_at := by omega
    refine ⟨rfl, rfl, ?_, ?_⟩
    · intro hnone
      simp [refine_completed_buffer_concurrently, hn, pop_and_refine,
            get_completed_buffer, hnone]
    · intro n rest hsome
      have hsome' : try_pop interfere (qs.completed ++ qs.pausedPrev) =
          some (n, rest) := by
        simpa [enqueue_previous_paused_buffers] using hsome
      refine ⟨?_, ?_, ?_⟩
      · simp [refine_completed_buffer_concurrently, hn, pop_and_refine,
              get_completed_buffer, enqueue_previous_paused_buffers, hsome']
      · intro hfull
        simp [refine_completed_buffer_concurrently, hn, pop_and_refine,
              get_completed_buffer, hsome', handle_refined_buffer, hfull,
              enqueue_previous_paused_buffers]
      · intro hyld
        simp [refine_completed_buffer_concurrently, hn, pop_and_refine,
              get_completed_buffer, hsome', handle_refined_buffer, hyld,
              record_paused_buffer, enqueue_previous_paused_buffers]

/-- Concrete run of `refine_concurrently_spec`: two cards above a stop
threshold of zero, a fully completed refinement pass: the call reports true
and the node goes back to the allocator's free list. -/
theorem refine_concurrently_spec_witness :
    (refine_completed_buffer_concurrently (fun _ => false) 0 false sampleQS).1 =
      true ∧
    (refine_completed_buffer_concurrently (fun _ => false) 0 false sampleQS).2.1.freelist =
      (refineNode (fun _ => false) sampleNode).2.1 :: sampleQS.freelist := by
  have h := ((refine_concurrently_spec (fun _ => false) 0 false sampleQS).2
      (by decide)).2.2.2 sampleNode [] (by decide)
  exact ⟨h.1, h.2.1 (by decide)⟩

/-- Claim C3: after `abandon_logs_and_stats`, `num_cards` is zero, the
completed queue and both generations of paused buffers are empty, every
attached thread's buffer is absent and its stats reset, the global stats
are reset, and every buffer from those places now sits in the allocator's
free list. -/
theorem abandon_logs_and_stats_spec (threads : List GCThread) (qs : QueueSet) :
    (abandon_logs_and_stats threads qs).2.numCards = 0 ∧
    (abandon_logs_and_stats threads qs).2.completed = [] ∧
    (abandon_logs_and_stats threads qs).2.pausedPrev = [] ∧
    (abandon_logs_and_stats threads qs).2.pausedNext = [] ∧
    (abandon_logs_and_stats threads qs).1 =
      threads.map (fun _ => ({ buffer := none, stats := RefineStats.reset } : GCThread)) ∧
    (abandon_logs_and_stats threads qs).2.concatenatedStats = RefineStats.reset ∧
    (abandon_logs_and_stats threads qs).2.detachedStats = RefineStats.reset ∧
    (abandon_logs_and_stats threads qs).2.freelist =
      (qs.completed ++ qs.pausedPrev ++ qs.pausedNext) ++
        (threads.filterMap GCThread.buffer ++ qs.freelist) :=
  ⟨rfl, rfl, rfl, rfl, rfl, rfl, rfl, rfl⟩

/-- Claim C4: on the mutator path `handle_completed_buffer` always pushes
the node (adding its card count to `num_cards`); when the resulting
`num_cards` exceeds `mutator_refinement_threshold` it performs exactly one
inline refinement step, popping one buffer from the completed queue and
refining it; otherwise the node is only enqueued and no inline refinement
is performed. -/
theorem handle_completed_buffer_spec (sY : Nat → Bool) (interfere : Bool)
    (n : BufferNode) (qs : QueueSet) :
    (enqueue_completed_buffer n qs).completed = qs.completed ++ [n] ∧
    (enqueue_completed_buffer n qs).numCards = qs.numCards + n.cards ∧
    ((enqueue_completed_buffer n qs).numCards ≤ qs.mutatorThreshold →
      handle_completed_buffer sY interfere n qs =
        (enqueue_completed_buffer n qs, [])) ∧
    (qs.mutatorThreshold < (enqueue_completed_buffer n qs).numCards →
      handle_completed_buffer sY interfere n qs =
        ((pop_and_refine sY interfere (enqueue_completed_buffer n qs)).2.1,
         (pop_and_refine sY interfere (enqueue_completed_buffer n qs)).2.2)) := by
  refine ⟨rfl, rfl, ?_, ?_⟩
  · intro h
    simp [handle_completed_buffer]
    intro hgt
    exact absurd h (by simpa [enqueue_completed_buffer] using Nat.not_le_of_lt hgt)
  · intro h
    have hn : ¬ (enqueue_completed_buffer n qs).numCards ≤
        (enqueue_completed_buffer n qs).mutatorThreshold := by
      simpa [enqueue_completed_buffer] using Nat.not_le_of_lt h
    simp [handle_completed_buffer, hn]

/-- Concrete run of `handle_completed_buffer_spec`: with the threshold at
zero the mutator path performs the inline refinement step after pushing. -/
theorem handle_completed_buffer_spec_witness :
    handle_completed_buffer (fun _ => false) false sampleNode sampleQS =
      ((pop_and_refine (fun _ => false) false
          (enqueue_completed_buffer sampleNode sampleQS)).2.1,
       (pop_and_refine (fun _ => false) false
          (enqueue_completed_buffer sampleNode sampleQS)).2.2) :=
  (handle_completed_buffer_spec (fun _ => false) false sampleNode
    sampleQS).2.2.2 (by decide)

/-- Claim C6: `dequeue_completed_buffer` returns nothing both when the
completed queue is empty and when a concurrent modification interferes
(spurious empty is permitted even on a non-empty queue); when it returns a
node, that node is the head of the completed queue, hence a node that is in
the queue. -/
theorem dequeue_completed_buffer_spec (interfere : Bool) (qs : QueueSet) :
    (qs.completed = [] → (dequeue_completed_buffer interfere qs).1 = none) ∧
    (interfere = true → (dequeue_completed_buffer interfere qs).1 = none) ∧
    (∀ n, (dequeue_completed_buffer interfere qs).1 = some n →
      qs.completed.head? = some n ∧ n ∈ qs.completed) := by
  refine ⟨?_, ?_, ?_⟩
  · intro h
    cases interfere <;> simp [dequeue_completed_buffer, try_pop, h]
  · intro h
    subst h
    simp [dequeue_completed_buffer, try_pop]
  · intro n h
    cases hi : interfere with
    | true => subst hi; simp [dequeue_completed_buffer, try_pop] at h
    | false =>
      subst hi
      cases hc : qs.completed with
      | nil => simp [dequeue_completed_buffer, try_pop, hc] at h
      | cons m rest =>
        simp [dequeue_completed_buffer, try_pop, hc] at h
        subst h
        simp [hc]

/-- Concrete run of `dequeue_completed_buffer_spec`: the dequeued node is
the head of the sample completed queue. -/
theorem dequeue_completed_buffer_spec_witness :
    sampleQS.completed.head? = some sampleNode ∧
    sampleNode ∈ sampleQS.completed :=
  (dequeue_completed_buffer_spec false sampleQS).2.2 sampleNode (by decide)

/-- The number of cards actually present in the completed queue and the
paused buffers combined. -/
def QueueSet.residentCards (qs : QueueSet) : Nat :=
  listCards qs.completed + listCards qs.pausedPrev + listCards qs.pausedNext

/-- The counter invariant: `num_cards` accounts exactly for the cards
resident in the completed queue and the paused buffers (this sequential
model corresponds to the safepoint view, where the count is exact; in the
running system concurrent mutators can only make the reading high). -/
def CardsInv (qs : QueueSet) : Prop := qs.numCards = qs.residentCards

theorem listCards_nil : listCards [] = 0 := rfl

theorem listCards_cons (n : BufferNode) (l : List BufferNode) :
    listCards (n :: l) = n.cards + listCards l := by
  simp [listCards]

theorem listCards_append (a b : List BufferNode) :
    listCards (a ++ b) = listCards a + listCards b := by
  simp [listCards]

/-- A successful `try_pop` returns exactly the head of the queue. -/
theorem try_pop_eq_some {interfere : Bool} {q rest : List BufferNode}
    {n : BufferNode} (h : try_pop interfere q = some (n, rest)) :
    q = n :: rest := by
  cases interfere with
  | true => simp [try_pop] at h
  | false =>
    cases q with
    | nil => simp [try_pop] at h
    | cons m r =>
      simp [try_pop] at h
      rw [h.1, h.2]

/-- The refinement pass splits a node's live cards into the delivered part
and the remaining part; full processing leaves nothing behind. -/
theorem refineLive_split (sY : Nat → Bool) :
    ∀ (k : Nat) (l : List Nat),
      (refineLive sY k l).1 ++ (refineLive sY k l).2.1 = l ∧
      ((refineLive sY k l).2.2 = true → (refineLive sY k l).2.1 = []) := by
  intro k l
  induction l generalizing k with
  | nil => simp [refineLive]
  | cons c rest ih =>
    by_cases hy : sY k
    · simp [refineLive, hy]
    · obtain ⟨h1, h2⟩ := ih (k + 1)
      constructor
      · simp [refineLive, hy, h1]
      · intro hf
        simp only [refineLive, if_neg hy] at hf
        simp [refineLive, hy, h2 hf]

/-- `refineNode` restated: delivered cards plus remaining cards are the
node's live cards, and a fully processed node retains no cards. -/
theorem refineNode_split (sY : Nat → Bool) (n : BufferNode) :
    (refineNode sY n).1 ++ (refineNode sY n).2.1.live = n.live ∧
    ((refineNode sY n).2.2 = true → (refineNode sY n).2.1.live = []) := by
  simpa [refineNode] using refineLive_split sY 0 n.live

theorem enqueue_cardsInv (n : BufferNode) {qs : QueueSet} (h : CardsInv qs) :
    CardsInv (enqueue_completed_buffer n qs) := by
  simp only [CardsInv, QueueSet.residentCards, enqueue_completed_buffer,
    listCards_append, listCards_cons, listCards_nil] at h ⊢
  omega

theorem transfer_cardsInv {qs : QueueSet} (h : CardsInv qs) :
    CardsInv (enqueue_previous_paused_buffers qs) := by
  simp only [CardsInv, QueueSet.residentCards, enqueue_previous_paused_buffers,
    listCards_append, listCards_nil] at h ⊢
  omega

theorem pop_and_refine_cardsInv (sY : Nat → Bool) (interfere : Bool)
    {qs : QueueSet} (h : CardsInv qs) :
    CardsInv (pop_and_refine sY interfere qs).2.1 := by
  cases htp : try_pop interfere (qs.completed ++ qs.pausedPrev) with
  | none =>
    have h1 := transfer_cardsInv h
    simpa [pop_and_refine, get_completed_buffer,
      enqueue_previous_paused_buffers, htp] using h1
  | some p =>
    obtain ⟨n, rest⟩ := p
    have hq : qs.completed ++ qs.pausedPrev = n :: rest := try_pop_eq_some htp
    have hc : listCards qs.completed + listCards qs.pausedPrev =
        n.cards + listCards rest := by
      have := congrArg listCards hq
      simpa [listCards_append, listCards_cons] using this
    have hlen : n.live.length =
        (refineNode sY n).1.length + (refineNode sY n).2.1.live.length := by
      have := congrArg List.length (refineNode_split sY n).1
      simpa using this.symm
    by_cases hf : (refineNode sY n).2.2
    · have hrem : (refineNode sY n).2.1.live = [] := (refineNode_split sY n).2 hf
      simp only [CardsInv, QueueSet.residentCards] at h
      simp only [CardsInv, QueueSet.residentCards, pop_and_refine,
        get_completed_buffer, enqueue_previous_paused_buffers, htp,
        handle_refined_buffer, if_pos hf, listCards_append, listCards_nil]
      simp only [BufferNode.cards] at *
      omega
    · simp only [CardsInv, QueueSet.residentCards] at h
      simp only [CardsInv, QueueSet.residentCards, pop_and_refine,
        get_completed_buffer, enqueue_previous_paused_buffers, htp,
        handle_refined_buffer, if_neg hf, record_paused_buffer,
        listCards_append, listCards_cons, listCards_nil, List.append_nil]
      have hrem : (refineNode sY n).2.1.cards =
          n.live.length - (refineNode sY n).1.length := by
        simp only [BufferNode.cards]
        omega
      simp only [BufferNode.cards] at *
      omega

/-- Modelled from the spec: the operations of the queue set that mutate its
state between safepoints and at non-full-GC safepoints, as one step
relation: enqueue of a completed buffer, concurrent refinement, the mutator
path, transfer or drain of paused buffers, the passing of a safepoint
(the next-safepoint paused list becomes a previous-safepoint one), the
safepoint drain `take_all_completed_buffers`, and
`abandon_completed_buffers`. -/
inductive QStep : QueueSet → QueueSet → Prop where
  | enqueue (n : BufferNode) (qs : QueueSet) :
      QStep qs (enqueue_completed_buffer n qs)
  | refine (sY : Nat → Bool) (stop_at : Nat) (interfere : Bool)
      (qs : QueueSet) :
      QStep qs (refine_completed_buffer_concurrently sY stop_at interfere qs).2.1
  | mutator (sY : Nat → Bool) (interfere : Bool) (n : BufferNode)
      (qs : QueueSet) :
      QStep qs (handle_completed_buffer sY interfere n qs).1
  | transferPrevious (qs : QueueSet) :
      QStep qs (enqueue_previous_paused_buffers qs)
  | safepointPass (qs : QueueSet) :
      QStep qs { qs with pausedPrev := qs.pausedPrev ++ qs.pausedNext
                         pausedNext := [] }
  | drainPaused (qs : QueueSet) :
      QStep qs (enqueue_all_paused_buffers qs)
  | takeAll (qs : QueueSet) :
      QStep qs (take_all_completed_buffers qs).2
  | abandon (qs : QueueSet) :
      QStep qs (abandon_completed_buffers qs)

theorem qstep_cardsInv {qs qs2 : QueueSet} (h : CardsInv qs)
    (hs : QStep qs qs2) : CardsInv qs2 := by
  cases hs with
  | enqueue n qs => exact enqueue_cardsInv n h
  | refine sY stop_at interfere qs =>
    by_cases hley : qs.numCards ≤ stop_at
    · simpa [refine_completed_buffer_concurrently, hley] using h
    · have := pop_and_refine_cardsInv sY interfere h
      simpa [refine_completed_buffer_concurrently, hley] using this
  | mutator sY interfere n qs =>
    have h1 := enqueue_cardsInv n h
    by_cases hley : (enqueue_completed_buffer n qs).numCards ≤
        (enqueue_completed_buffer n qs).mutatorThreshold
    · simpa [handle_completed_buffer, hley] using h1
    · have := pop_and_refine_cardsInv sY interfere h1
      simpa [handle_completed_buffer, hley] using this
  | transferPrevious qs => exact transfer_cardsInv h
  | safepointPass qs =>
    simp only [CardsInv, QueueSet.residentCards, listCards_append,
      listCards_nil] at h ⊢
    omega
  | drainPaused qs =>
    simp only [CardsInv, QueueSet.residentCards, enqueue_all_paused_buffers,
      listCards_append, listCards_nil] at h ⊢
    omega
  | takeAll qs =>
    simp [CardsInv, QueueSet.residentCards, take_all_completed_buffers,
      enqueue_all_paused_buffers, listCards_nil]
  | abandon qs =>
    simp [CardsInv, QueueSet.residentCards, abandon_completed_buffers,
      enqueue_all_paused_buffers, listCards_nil]

/-- Claim C5: `num_cards` is incremented (by the node's card count) on
every enqueue of a completed buffer, decremented on every pop
(`get_completed_buffer`) and zeroed on abandon; the invariant that
`num_cards` accounts for the cards in the completed and paused buffers is
preserved by every queue-set step, and under it `num_cards` is an upper
bound on — here, in the sequential safepoint view, exactly equal to — the
resident card count. -/
theorem num_cards_counter_spec :
    (∀ (n : BufferNode) (qs : QueueSet),
      (enqueue_completed_buffer n qs).numCards = qs.numCards + n.cards) ∧
    (∀ (interfere : Bool) (qs q1 : QueueSet) (n : BufferNode),
      get_completed_buffer interfere qs = (some n, q1) →
      q1.numCards = qs.numCards - n.cards) ∧
    (∀ qs : QueueSet, (abandon_completed_buffers qs).numCards = 0 ∧
      (take_all_completed_buffers qs).2.numCards = 0) ∧
    (∀ qs qs2 : QueueSet, CardsInv qs → QStep qs qs2 → CardsInv qs2) ∧
    (∀ qs : QueueSet, CardsInv qs → qs.residentCards ≤ qs.numCards ∧
      qs.numCards = qs.residentCards) := by
  refine ⟨fun n qs => rfl, ?_, fun qs => ⟨rfl, rfl⟩,
    fun qs qs2 h hs => qstep_cardsInv h hs,
    fun qs h => ⟨Nat.le_of_eq h.symm, h⟩⟩
  intro interfere qs q1 n h
  cases htp : try_pop interfere (qs.completed ++ qs.pausedPrev) with
  | none =>
    simp [get_completed_buffer, enqueue_previous_paused_buffers, htp] at h
  | some p =>
    obtain ⟨m, rest⟩ := p
    simp only [get_completed_buffer, enqueue_previous_paused_buffers, htp] at h
    injection h with h1 h2
    injection h1 with h1
    subst h1
    rw [← h2]

/-- Concrete run of `num_cards_counter_spec`: the invariant is preserved
when the sample state takes an enqueue step. -/
theorem num_cards_counter_spec_witness :
    CardsInv (enqueue_completed_buffer sampleNode sampleQS) :=
  num_cards_counter_spec.2.2.2.1 sampleQS
    (enqueue_completed_buffer sampleNode sampleQS) rfl
    (QStep.enqueue sampleNode sampleQS)

/-- The live cards of a thread's current buffer, as a multiset. -/
def threadCards (t : GCThread) : Multiset Nat :=
  match t.buffer with
  | none => 0
  | some n => (n.live : Multiset Nat)

/-- The live cards of a list of buffer nodes, as a multiset. -/
def listLive (l : List BufferNode) : Multiset Nat :=
  (l.map (fun n => (n.live : Multiset Nat))).sum

/-- The multiset of cards resident in the completed queue and the paused
buffers of a queue set. -/
def QueueSet.residentM (qs : QueueSet) : Multiset Nat :=
  listLive qs.completed + listLive qs.pausedPrev + listLive qs.pausedNext

theorem listLive_nil : listLive [] = 0 := rfl

theorem listLive_cons (n : BufferNode) (l : List BufferNode) :
    listLive (n :: l) = (n.live : Multiset Nat) + listLive l := by
  simp [listLive]

theorem listLive_append (a b : List BufferNode) :
    listLive (a ++ b) = listLive a + listLive b := by
  simp [listLive]

/-- The whole system: the attached threads with their in-progress buffers,
the queue set, the multiset of cards delivered to the card-refinement hook
so far, and (as history) the multiset of cards enqueued by the write
barrier across all per-thread queues so far. -/
structure World where
  threads : List GCThread
  qset : QueueSet
  delivered : Multiset Nat
  enqueued : Multiset Nat

/-- The cards currently resident in the completed queue, the paused
buffers, and the per-thread buffers. -/
def World.resident (w : World) : Multiset Nat :=
  QueueSet.residentM w.qset + (w.threads.map threadCards).sum

theorem enqueue_residentM (n : BufferNode) (qs : QueueSet) :
    QueueSet.residentM (enqueue_completed_buffer n qs) =
      QueueSet.residentM qs + (n.live : Multiset Nat) := by
  simp only [QueueSet.residentM, enqueue_completed_buffer, listLive_append,
    listLive_cons, listLive_nil]
  abel

/-- Refinement of one popped buffer moves cards out of the queue set only
into the delivered multiset: the new resident cards plus the cards
delivered in this pass are the old resident cards. -/
theorem pop_and_refine_residentM (sY : Nat → Bool) (interfere : Bool)
    (qs : QueueSet) :
    QueueSet.residentM (pop_and_refine sY interfere qs).2.1 +
      ((pop_and_refine sY interfere qs).2.2 : Multiset Nat) =
    QueueSet.residentM qs := by
  cases htp : try_pop interfere (qs.completed ++ qs.pausedPrev) with
  | none =>
    simp only [pop_and_refine, get_completed_buffer,
      enqueue_previous_paused_buffers, htp, QueueSet.residentM,
      listLive_append, listLive_nil, Multiset.coe_nil]
    abel
  | some p =>
    obtain ⟨n, rest⟩ := p
    have hq : qs.completed ++ qs.pausedPrev = n :: rest := try_pop_eq_some htp
    have hc : listLive qs.completed + listLive qs.pausedPrev =
        (n.live : Multiset Nat) + listLive rest := by
      have := congrArg listLive hq
      simpa [listLive_append, listLive_cons] using this
    have hsplit := refineNode_split sY n
    have hco : ((refineNode sY n).1 : Multiset Nat) +
        ((refineNode sY n).2.1.live : Multiset Nat) = (n.live : Multiset Nat) := by
      rw [Multiset.coe_add]
      exact congrArg _ hsplit.1
    by_cases hf : (refineNode sY n).2.2
    · have hrem : (refineNode sY n).2.1.live = [] := hsplit.2 hf
      simp only [pop_and_refine, get_completed_buffer,
        enqueue_previous_paused_buffers, htp, handle_refined_buffer,
        if_pos hf, QueueSet.residentM, listLive_append, listLive_nil]
      rw [hc, ← hco, hrem]
      simp only [Multiset.coe_nil]
      abel
    · simp only [pop_and_refine, get_completed_buffer,
        enqueue_previous_paused_buffers, htp, handle_refined_buffer,
        if_neg hf, record_paused_buffer, QueueSet.residentM, listLive_append,
        listLive_cons, listLive_nil, List.append_nil]
      rw [hc, ← hco]
      abel

/-- The mutator handoff path conserves cards: what is in the queue set
afterwards plus what the inline refinement delivered is what was in the
queue set before plus the flushed node's cards. -/
theorem handle_completed_residentM (sY : Nat → Bool) (interfere : Bool)
    (n : BufferNode) (qs : QueueSet) :
    QueueSet.residentM (handle_completed_buffer sY interfere n qs).1 +
      ((handle_completed_buffer sY interfere n qs).2 : Multiset Nat) =
    QueueSet.residentM qs + (n.live : Multiset Nat) := by
  by_cases hle : (enqueue_completed_buffer n qs).numCards ≤
      (enqueue_completed_buffer n qs).mutatorThreshold
  · simp only [handle_completed_buffer, if_pos hle, Multiset.coe_nil,
      add_zero]
    exact enqueue_residentM n qs
  · simp only [handle_completed_buffer, if_neg hle]
    rw [pop_and_refine_residentM sY interfere (enqueue_completed_buffer n qs)]
    exact enqueue_residentM n qs

/-- Concurrent refinement conserves cards: the new resident cards plus the
cards delivered are the old resident cards. -/
theorem refine_concurrently_residentM (sY : Nat → Bool) (stop_at : Nat)
    (interfere : Bool) (qs : QueueSet) :
    QueueSet.residentM
        (refine_completed_buffer_concurrently sY stop_at interfere qs).2.1 +
      ((refine_completed_buffer_concurrently sY stop_at interfere qs).2.2 :
        Multiset Nat) =
    QueueSet.residentM qs := by
  by_cases hle : qs.numCards ≤ stop_at
  · simp [refine_completed_buffer_concurrently, hle]
  · simp only [refine_completed_buffer_concurrently, if_neg hle]
    exact pop_and_refine_residentM sY interfere qs

/-- Replacing the thread at a valid position changes the sum of per-thread
card multisets by swapping that thread's contribution. -/
theorem threadCards_sum_set :
    ∀ (ts : List GCThread) (i : Nat) (t t2 : GCThread), ts[i]? = some t →
      ((ts.set i t2).map threadCards).sum + threadCards t =
        (ts.map threadCards).sum + threadCards t2 := by
  intro ts
  induction ts with
  | nil => intro i t t2 h; simp at h
  | cons a l ih =>
    intro i t t2 h
    cases i with
    | zero =>
      simp only [List.getElem?_cons_zero, Option.some.injEq] at h
      subst h
      simp only [List.set_cons_zero, List.map_cons, List.sum_cons]
      abel
    | succ j =>
      simp only [List.getElem?_cons_succ] at h
      simp only [List.set_cons_succ, List.map_cons, List.sum_cons]
      calc threadCards a + ((l.set j t2).map threadCards).sum + threadCards t
          = threadCards a +
              (((l.set j t2).map threadCards).sum + threadCards t) := by abel
        _ = threadCards a + ((l.map threadCards).sum + threadCards t2) := by
              rw [ih j t t2 h]
        _ = threadCards a + (l.map threadCards).sum + threadCards t2 := by abel

/-- Modelled from the spec: the atomic steps of the subsystem, interleaved
in any order: a mutator write barrier storing a card into its thread's
buffer, the allocation of a fresh buffer for a thread, the mutator handoff
of a full buffer (`handle_completed_buffer`), a concurrent refinement pass
(`refine_completed_buffer_concurrently`), the passing of a safepoint (the
paused list recorded for it becomes a previous-safepoint list), the
transfer of previously paused buffers, the safepoint drain of all paused
buffers, and the safepoint flush of a thread's buffer
(`concatenate_log_and_stats`).  `abandon_logs_and_stats` is excluded.
`cap` is the buffer capacity. -/
inductive WStep (cap : Nat) : World → World → Prop where
  | writeCard (w : World) (i : Nat) (t : GCThread) (n : BufferNode)
      (card : Nat) (ht : w.threads[i]? = some t) (hb : t.buffer = some n)
      (hroom : n.live.length < cap) :
      WStep cap w
        { w with
          threads := w.threads.set i { t with buffer := some ⟨card :: n.live⟩ }
          enqueued := card ::ₘ w.enqueued }
  | allocBuffer (w : World) (i : Nat) (t : GCThread)
      (ht : w.threads[i]? = some t) (hb : t.buffer = none) :
      WStep cap w
        { w with threads := w.threads.set i { t with buffer := some ⟨[]⟩ } }
  | mutatorFlush (w : World) (i : Nat) (t : GCThread) (n : BufferNode)
      (sY : Nat → Bool) (interfere : Bool) (ht : w.threads[i]? = some t)
      (hb : t.buffer = some n) (hfull : n.live.length = cap) :
      WStep cap w
        { w with
          threads := w.threads.set i { t with buffer := none }
          qset := (handle_completed_buffer sY interfere n w.qset).1
          delivered := w.delivered +
            ((handle_completed_buffer sY interfere n w.qset).2 : Multiset Nat) }
  | refinerStep (w : World) (sY : Nat → Bool) (stop_at : Nat)
      (interfere : Bool) :
      WStep cap w
        { w with
          qset := (refine_completed_buffer_concurrently sY stop_at interfere
            w.qset).2.1
          delivered := w.delivered +
            ((refine_completed_buffer_concurrently sY stop_at interfere
              w.qset).2.2 : Multiset Nat) }
  | safepointPass (w : World) :
      WStep cap w
        { w with
          qset := { w.qset with
            pausedPrev := w.qset.pausedPrev ++ w.qset.pausedNext
            pausedNext := [] } }
  | transferPrevious (w : World) :
      WStep cap w { w with qset := enqueue_previous_paused_buffers w.qset }
  | drainPaused (w : World) :
      WStep cap w { w with qset := enqueue_all_paused_buffers w.qset }
  | concatenateLog (w : World) (i : Nat) (t : GCThread) (n : BufferNode)
      (ht : w.threads[i]? = some t) (hb : t.buffer = some n) :
      WStep cap w
        { w with
          threads := w.threads.set i { t with buffer := none }
          qset := enqueue_completed_buffer n w.qset }

/-- Each step of the system conserves cards: the enqueued history always
equals the delivered cards plus the resident cards. -/
theorem wstep_conserved (cap : Nat) {w w2 : World}
    (h : w.enqueued = w.delivered + w.resident) (hs : WStep cap w w2) :
    w2.enqueued = w2.delivered + w2.resident := by
  cases hs with
  | writeCard i t n card ht hb hroom =>
    have hsum := threadCards_sum_set w.threads i t
      { t with buffer := some ⟨card :: n.live⟩ } ht
    have htc : threadCards t = (n.live : Multiset Nat) := by
      simp [threadCards, hb]
    have htc2 : threadCards { t with buffer := some ⟨card :: n.live⟩ } =
        {card} + (n.live : Multiset Nat) := by
      simp only [threadCards, Multiset.singleton_add, Multiset.cons_coe]
    rw [htc, htc2] at hsum
    have hkey : ((w.threads.set i
          { t with buffer := some ⟨card :: n.live⟩ }).map threadCards).sum =
        {card} + (w.threads.map threadCards).sum := by
      have h2 : (w.threads.map threadCards).sum +
          ({card} + (n.live : Multiset Nat)) =
          ({card} + (w.threads.map threadCards).sum) +
            (n.live : Multiset Nat) := by abel
      rw [h2] at hsum
      exact add_right_cancel hsum
    simp only [World.resident]
    rw [hkey, h]
    simp only [World.resident]
    rw [← Multiset.singleton_add]
    abel
  | allocBuffer i t ht hb =>
    have hsum := threadCards_sum_set w.threads i t
      { t with buffer := some ⟨[]⟩ } ht
    have htc : threadCards t = 0 := by simp [threadCards, hb]
    have htc2 : threadCards { t with buffer := some ⟨[]⟩ } = 0 := by
      simp [threadCards, Multiset.coe_nil]
    rw [htc, htc2] at hsum
    have hkey : ((w.threads.set i { t with buffer := some ⟨[]⟩ }).map
        threadCards).sum = (w.threads.map threadCards).sum := by
      simpa using hsum
    simp only [World.resident]
    rw [hkey]
    exact h
  | mutatorFlush i t n sY interfere ht hb hfull =>
    have hsum := threadCards_sum_set w.threads i t { t with buffer := none } ht
    have htc : threadCards t = (n.live : Multiset Nat) := by
      simp [threadCards, hb]
    have htc2 : threadCards { t with buffer := none } = 0 := by
      simp [threadCards]
    rw [htc, htc2, add_zero] at hsum
    have hq := handle_completed_residentM sY interfere n w.qset
    simp only [World.resident] at h ⊢
    rw [h]
    calc w.delivered + (QueueSet.residentM w.qset +
          (w.threads.map threadCards).sum)
        = w.delivered + (QueueSet.residentM w.qset +
            (((w.threads.set i { t with buffer := none }).map
              threadCards).sum + (n.live : Multiset Nat))) := by rw [hsum]
      _ = w.delivered + ((QueueSet.residentM w.qset + (n.live : Multiset Nat)) +
            ((w.threads.set i { t with buffer := none }).map
              threadCards).sum) := by abel
      _ = w.delivered + ((QueueSet.residentM
              (handle_completed_buffer sY interfere n w.qset).1 +
            ((handle_completed_buffer sY interfere n w.qset).2 :
              Multiset Nat)) +
            ((w.threads.set i { t with buffer := none }).map
              threadCards).sum) := by rw [hq]
      _ = w.delivered +
            ((handle_completed_buffer sY interfere n w.qset).2 :
              Multiset Nat) +
            (QueueSet.residentM
              (handle_completed_buffer sY interfere n w.qset).1 +
            ((w.threads.set i { t with buffer := none }).map
              threadCards).sum) := by abel
  | refinerStep sY stop_at interfere =>
    have hq := refine_concurrently_residentM sY stop_at interfere w.qset
    simp only [World.resident] at h ⊢
    rw [h, ← hq]
    abel
  | safepointPass =>
    have hres : QueueSet.residentM { w.qset with
        pausedPrev := w.qset.pausedPrev ++ w.qset.pausedNext
        pausedNext := [] } = QueueSet.residentM w.qset := by
      simp only [QueueSet.residentM, listLive_append, listLive_nil]
      abel
    simp only [World.resident] at h ⊢
    rw [hres]
    exact h
  | transferPrevious =>
    have hres : QueueSet.residentM (enqueue_previous_paused_buffers w.qset) =
        QueueSet.residentM w.qset := by
      simp only [QueueSet.residentM, enqueue_previous_paused_buffers,
        listLive_append, listLive_nil]
      abel
    simp only [World.resident] at h ⊢
    rw [hres]
    exact h
  | drainPaused =>
    have hres : QueueSet.residentM (enqueue_all_paused_buffers w.qset) =
        QueueSet.residentM w.qset := by
      simp only [QueueSet.residentM, enqueue_all_paused_buffers,
        listLive_append, listLive_nil]
      abel
    simp only [World.resident] at h ⊢
    rw [hres]
    exact h
  | concatenateLog i t n ht hb =>
    have hsum := threadCards_sum_set w.threads i t { t with buffer := none } ht
    have htc : threadCards t = (n.live : Multiset Nat) := by
      simp [threadCards, hb]
    have htc2 : threadCards { t with buffer := none } = 0 := by
      simp [threadCards]
    rw [htc, htc2, add_zero] at hsum
    simp only [World.resident] at h ⊢
    rw [h, enqueue_residentM, ← hsum]
    abel

/-- Reachability by any interleaving of the steps. -/
def WReach (cap : Nat) : World → World → Prop :=
  Relation.ReflTransGen (WStep cap)

/-- The initial system: `k` attached threads with no buffers, an empty
queue set with mutator refinement threshold `thr`, nothing delivered,
nothing enqueued. -/
def initWorld (k thr : Nat) : World :=
  { threads := List.replicate k { buffer := none, stats := RefineStats.reset }
    qset :=
      { numCards := 0
        mutatorThreshold := thr
        completed := []
        pausedPrev := []
        pausedNext := []
        freelist := []
        concatenatedStats := RefineStats.reset
        detachedStats := RefineStats.reset }
    delivered := 0
    enqueued := 0 }

/-- Claim C7: under every interleaving of mutator, refiner and safepoint
steps that excludes `abandon_logs_and_stats`, the multiset of card pointers
enqueued across all per-thread queues equals the multiset delivered to the
refinement hook plus the multiset currently resident in the completed
queue, the paused buffers, and the per-thread buffers: no card is lost and
none is delivered more often than enqueued. -/
theorem conservation_spec (cap k thr : Nat) (w : World)
    (h : WReach cap (initWorld k thr) w) :
    w.enqueued = w.delivered + w.resident := by
  induction h with
  | refl =>
    simp [initWorld, World.resident, QueueSet.residentM, listLive_nil,
      threadCards, List.map_replicate]
  | tail hab hstep ih => exact wstep_conserved cap ih hstep

/-- A sample two-step trace for `conservation_spec`: one thread allocates
a buffer and the write barrier records card 5 into it. -/
def sampleWorld1 : World :=
  { initWorld 1 0 with
    threads := (initWorld 1 0).threads.set 0
      { buffer := some ⟨[]⟩, stats := RefineStats.reset } }

/-- The world after the write barrier stores card 5. -/
def sampleWorld2 : World :=
  { sampleWorld1 with
    threads := sampleWorld1.threads.set 0
      { buffer := some ⟨[5]⟩, stats := RefineStats.reset }
    enqueued := 5 ::ₘ sampleWorld1.enqueued }

/-- Concrete run of `conservation_spec` after a two-step trace:
enqueued {5} equals delivered {} plus the resident card 5 sitting in the
thread's buffer. -/
theorem conservation_spec_witness :
    sampleWorld2.enqueued = sampleWorld2.delivered + sampleWorld2.resident :=
  conservation_spec 4 1 0 sampleWorld2
    (Relation.ReflTransGen.tail
      (Relation.ReflTransGen.single
        (WStep.allocBuffer (initWorld 1 0) 0
          { buffer := none, stats := RefineStats.reset } rfl rfl))
      (WStep.writeCard sampleWorld1 0
        { buffer := some ⟨[]⟩, stats := RefineStats.reset } ⟨[]⟩ 5 rfl rfl
        (by decide)))

end G1
